import Mathlib

/-!
Verification of the BLE-Recon core: the filter engine
(ble_filter_config_builtin.h), the AD-structure walk and attribute
extraction, and the deduplication registry (scan_callback).

Arduino String values are modelled as byte lists (List Nat); every
operation below is a direct translation of the corresponding C++ code.
-/

namespace BLERecon

/-- Byte-wise ASCII upper-casing, as Arduino String.toUpperCase does per char. -/
def toUpperByte (b : Nat) : Nat := if 97 ≤ b ∧ b ≤ 122 then b - 32 else b

/-- Upper-case a byte string (String.toUpperCase). -/
def toUpperStr (s : List Nat) : List Nat := s.map toUpperByte

/-- Substring containment: String.indexOf(pat) returns a non-negative index
exactly when pat occurs contiguously in s (strstr semantics). -/
def containsSub (s pat : List Nat) : Bool :=
  (List.range (s.length + 1)).any (fun i => (s.drop i).take pat.length == pat)

/-- One upper-case hex digit (value below 10 maps to 0-9, else A-F). -/
def hexDigit (d : Nat) : Nat := if d < 10 then 48 + d else 55 + d

/-- toHex from the sketch: two upper-case hex chars per byte, zero-padded,
no separators. -/
def toHex (p : List Nat) : List Nat :=
  p.flatMap (fun b => [hexDigit (b / 16 % 16), hexDigit (b % 16)])

/-- sprintf %04X rendering of a 16-bit value. -/
def hex4 (v : Nat) : List Nat :=
  [hexDigit (v / 4096 % 16), hexDigit (v / 256 % 16), hexDigit (v / 16 % 16), hexDigit (v % 16)]

/-! ## Filter engine (ble_filter_config_builtin.h) -/

inductive FilterMode
  | FILTER_OFF
  | FILTER_WHITELIST
  | FILTER_BLACKLIST
deriving DecidableEq

structure FilterConfig where
  mode : FilterMode := .FILTER_OFF
  ouiList : List (List Nat) := []
  nameList : List (List Nat) := []
  uuidList : List (List Nat) := []
  payloadList : List (List Nat) := []
deriving DecidableEq

structure BLEFilter where
  whitelist : FilterConfig := {}
  blacklist : FilterConfig := {}
  initialized : Bool := false
deriving DecidableEq

/-- BLEFilter.matchesOUI: full (17+ char) patterns compare equal after
upper-casing, shorter patterns compare the common prefix. -/
def matchesOUI (mac : List Nat) (ouiList : List (List Nat)) : Bool :=
  if ouiList.isEmpty then false
  else
    ouiList.any (fun pattern =>
      if 17 ≤ (toUpperStr pattern).length then toUpperStr mac == toUpperStr pattern
      else
        (toUpperStr mac).take (min (toUpperStr pattern).length (toUpperStr mac).length) ==
          (toUpperStr pattern).take (min (toUpperStr pattern).length (toUpperStr mac).length))

/-- BLEFilter.matchesName: upper-cases only the candidate, then looks for
each pattern verbatim inside it. -/
def matchesName (name : List Nat) (nameList : List (List Nat)) : Bool :=
  if nameList.isEmpty || name.length == 0 then false
  else nameList.any (fun pattern => containsSub (toUpperStr name) pattern)

/-- BLEFilter.matchesUUID: upper-cases only the candidate. -/
def matchesUUID (uuid : List Nat) (uuidList : List (List Nat)) : Bool :=
  if uuidList.isEmpty then false
  else uuidList.any (fun pattern => containsSub (toUpperStr uuid) pattern)

/-- BLEFilter.matchesPayload: upper-cases candidate and pattern. -/
def matchesPayload (payload : List Nat) (payloadList : List (List Nat)) : Bool :=
  if payloadList.isEmpty || payload.length == 0 then false
  else payloadList.any (fun pattern => containsSub (toUpperStr payload) (toUpperStr pattern))

/-- BLEFilter.shouldShow. -/
def shouldShow (fl : BLEFilter) (mac name uuid payload : List Nat) : Bool :=
  if !fl.initialized then true
  else if fl.whitelist.mode == .FILTER_WHITELIST then
    matchesOUI mac fl.whitelist.ouiList || matchesName name fl.whitelist.nameList ||
      matchesUUID uuid fl.whitelist.uuidList || matchesPayload payload fl.whitelist.payloadList
  else if fl.blacklist.mode == .FILTER_BLACKLIST then
    !(matchesOUI mac fl.blacklist.ouiList || matchesName name fl.blacklist.nameList ||
      matchesUUID uuid fl.blacklist.uuidList || matchesPayload payload fl.blacklist.payloadList)
  else true

/-- BLEFilter.disableFilters. -/
def disableFilters (fl : BLEFilter) : BLEFilter :=
  { fl with blacklist := { fl.blacklist with mode := .FILTER_OFF },
            whitelist := { fl.whitelist with mode := .FILTER_OFF } }

/-- BLEFilter.enableFilters: re-activates a list only when its ouiList is
non-empty. -/
def enableFilters (fl : BLEFilter) : BLEFilter :=
  let bl := if fl.blacklist.ouiList.isEmpty then fl.blacklist
            else { fl.blacklist with mode := .FILTER_BLACKLIST }
  let wl := if fl.whitelist.ouiList.isEmpty then fl.whitelist
            else { fl.whitelist with mode := .FILTER_WHITELIST }
  { fl with blacklist := bl, whitelist := wl }

/-- BLEFilter.addBlacklistName. -/
def addBlacklistName (fl : BLEFilter) (n : List Nat) : BLEFilter :=
  { fl with blacklist := { fl.blacklist with
      nameList := fl.blacklist.nameList ++ [n], mode := .FILTER_BLACKLIST } }

/-! ## AD structure walk (the while loops in scan_callback and
printADStructures share this logic verbatim) -/

/-- One decoded AD element: its byte offset in the payload, its declared
length byte, its type byte and its data bytes. -/
structure ADElem where
  off : Nat
  adLen : Nat
  typ : Nat
  dat : List Nat
deriving DecidableEq

/-- The AD walk with explicit fuel so that it is structurally recursive;
each loop iteration consumes at least two payload bytes, so fuel
p.length + 1 never runs out before the loop itself stops. -/
def adWalkAux : Nat → List Nat → Nat → List ADElem
  | 0, _, _ => []
  | fuel+1, p, off =>
    if p.length - off < 2 then []
    else if p.getD off 0 = 0 then []
    else if p.length < off + p.getD off 0 + 1 then []
    else ⟨off, p.getD off 0, p.getD (off + 1) 0, (p.drop (off + 2)).take (p.getD off 0 - 1)⟩ ::
      adWalkAux fuel p (off + p.getD off 0 + 1)

/-- The AD walk started at a given offset. -/
def adWalkFrom (p : List Nat) (off : Nat) : List ADElem := adWalkAux (p.length + 1) p off

/-- The AD walk over a whole payload. -/
def adWalk (p : List Nat) : List ADElem := adWalkFrom p 0

/-! ## Attribute extraction (scan_callback, quick parse for name and UUID) -/

/-- One iteration of the extraction loop body: name elements (types 0x09
and 0x08) overwrite the name, 16-bit UUID elements with at least two data
bytes overwrite the uuid. -/
def extractStep (st : List Nat × List Nat) (e : ADElem) : List Nat × List Nat :=
  if e.typ = 9 ∨ e.typ = 8 then (e.dat, st.2)
  else if e.typ = 3 ∧ 2 ≤ e.dat.length then
    (st.1, hex4 (((e.dat.getD 0 0) ||| ((e.dat.getD 1 0) <<< 8)) % 65536))
  else st

/-- The extracted attributes of a raw payload: name, uuid, payload hex. -/
def extractAttrs (p : List Nat) : List Nat × List Nat × List Nat :=
  let nu := (adWalk p).foldl extractStep ([], [])
  (nu.1, nu.2, toHex p)

/-- Recognizer for the elements that set the name. -/
def isNameElem (e : ADElem) : Bool := e.typ == 9 || e.typ == 8

/-- Recognizer for the elements that set the uuid. -/
def isUuidElem (e : ADElem) : Bool := e.typ == 3 && decide (2 ≤ e.dat.length)

/-- The name the extraction ends up with: the data of the last name
element, empty if there is none. -/
def lastNameOf (es : List ADElem) : List Nat :=
  match (es.filter isNameElem).getLast? with
  | some e => e.dat
  | none => []

/-- The uuid the extraction ends up with: rendered from the first two data
bytes of the last 16-bit-UUID element, empty if there is none. -/
def lastUuidOf (es : List ADElem) : List Nat :=
  match (es.filter isUuidElem).getLast? with
  | some e => hex4 (((e.dat.getD 0 0) ||| ((e.dat.getD 1 0) <<< 8)) % 65536)
  | none => []

/-- Modelled from the claim text, for comparison with the code: the bytes
of the first Complete-Local-Name (type 0x09) element, empty if none. -/
def specFirstLocalName (p : List Nat) : List Nat :=
  match (adWalk p).find? (fun e => e.typ == 9) with
  | some e => e.dat
  | none => []

/-! ## Deduplication registry (scan_callback) -/

structure SeenDevice where
  mac : List Nat
  name : List Nat
  payload : List Nat
  rssi : Int
  lastSeen : Nat
deriving DecidableEq

/-- nameChanged: the stored name differs and the incoming name is non-empty. -/
def nameChangedB (dev : SeenDevice) (name : List Nat) : Bool :=
  (dev.name != name) && decide (0 < name.length)

/-- payloadChanged. -/
def payloadChangedB (dev : SeenDevice) (payload : List Nat) : Bool :=
  dev.payload != payload

/-- rssiSignificantChange: more than 10 dBm difference. -/
def rssiChangedB (dev : SeenDevice) (rssi : Int) : Bool :=
  decide (10 < (dev.rssi - rssi).natAbs)

/-- Did anything interesting change for an already-tracked device. -/
def devChanged (dev : SeenDevice) (name payload : List Nat) (rssi : Int) : Bool :=
  nameChangedB dev name || payloadChangedB dev payload || rssiChangedB dev rssi

/-- The update applied to a tracked device when something changed. -/
def updateDev (dev : SeenDevice) (name payload : List Nat) (rssi : Int) (now : Nat) :
    SeenDevice :=
  { dev with
    name := if nameChangedB dev name then name else dev.name,
    payload := if payloadChangedB dev payload then payload else dev.payload,
    rssi := rssi,
    lastSeen := now }

/-- The first loop over g_seenDevices: update the first entry whose mac
matches and stop there. Returns the updated registry and none when no
entry matched, some c when one matched with c the devChanged outcome. -/
def touchLoop : List SeenDevice → List Nat → List Nat → List Nat → Int → Nat →
    List SeenDevice × Option Bool
  | [], _, _, _, _, _ => ([], none)
  | dev :: rest, mac, name, payload, rssi, now =>
    if dev.mac == mac then
      if devChanged dev name payload rssi then
        (updateDev dev name payload rssi now :: rest, some true)
      else
        ({ dev with lastSeen := now } :: rest, some false)
    else
      let r := touchLoop rest mac name payload rssi now
      (dev :: r.1, r.2)

/-- The whole deduplication step of scan_callback: touch the registry,
then insert a new entry when the report is new or changed, the registry is
below 100 entries and the address is not yet present. Returns the new
registry and the isNewOrChanged flag. -/
def dedupStep (regs : List SeenDevice) (mac name payload : List Nat) (rssi : Int)
    (now : Nat) : List SeenDevice × Bool :=
  let t := touchLoop regs mac name payload rssi now
  let isNewOrChanged := t.2 != some false
  if isNewOrChanged && decide (t.1.length < 100) && !(t.1.any (fun d => d.mac == mac)) then
    (t.1 ++ [⟨mac, name, payload, rssi, now⟩], isNewOrChanged)
  else (t.1, isNewOrChanged)

inductive Classification
  | New
  | Changed
  | Unchanged
deriving DecidableEq

/-- The classification of a report against the registry, as the spec names
it: New when the address is not tracked, otherwise Changed or Unchanged by
the devChanged test on the first matching entry. -/
def classify (regs : List SeenDevice) (mac name payload : List Nat) (rssi : Int) :
    Classification :=
  match regs.find? (fun d => d.mac == mac) with
  | none => .New
  | some dev => if devChanged dev name payload rssi then .Changed else .Unchanged

/-- The display-label check of scan_callback: the label is NEW (true)
unless some entry has this mac and a lastSeen below millis() - 1000, the
subtraction being 32-bit unsigned. -/
def isNewLabel (regs : List SeenDevice) (mac : List Nat) (now : Nat) : Bool :=
  !(regs.any (fun d =>
    d.mac == mac && decide (d.lastSeen < (now + 4294967296 - 1000) % 4294967296)))

/-- The ASCII bytes of the address AA:BB:CC:DD:EE:01. -/
def macA : List Nat := [65, 65, 58, 66, 66, 58, 67, 67, 58, 68, 68, 58, 69, 69, 58, 48, 49]

/-- The ASCII bytes of the name X. -/
def nameX : List Nat := [88]

/-- The ASCII bytes of the payload hex string 0102. -/
def pay0102 : List Nat := [48, 49, 48, 50]

/-- A concrete tracked device used in counterexamples: name X, payload hex 01,
signal strength -50. -/
def devD : SeenDevice := ⟨[170], [88], [48, 49], -50, 0⟩

/-! ## Helper lemmas about the AD walk -/

lemma adWalkAux_congr : ∀ f1 f2 p off, p.length + 1 ≤ off + f1 → p.length + 1 ≤ off + f2 →
    adWalkAux f1 p off = adWalkAux f2 p off := by
  intro f1
  induction f1 with
  | zero =>
    intro f2 p off h1 h2
    cases f2 with
    | zero => rfl
    | succ f2 =>
      simp only [adWalkAux]
      rw [if_pos (by omega)]
  | succ f1 ih =>
    intro f2 p off h1 h2
    cases f2 with
    | zero =>
      simp only [adWalkAux]
      rw [if_pos (by omega)]
    | succ f2 =>
      simp only [adWalkAux]
      by_cases hc1 : p.length - off < 2
      · rw [if_pos hc1, if_pos hc1]
      · rw [if_neg hc1, if_neg hc1]
        by_cases hc2 : p.getD off 0 = 0
        · rw [if_pos hc2, if_pos hc2]
        · rw [if_neg hc2, if_neg hc2]
          by_cases hc3 : p.length < off + p.getD off 0 + 1
          · rw [if_pos hc3, if_pos hc3]
          · rw [if_neg hc3, if_neg hc3]
            exact congrArg _ (ih f2 p (off + p.getD off 0 + 1) (by omega) (by omega))

lemma adWalkFrom_eq (p : List Nat) (off : Nat) :
    adWalkFrom p off =
      if p.length - off < 2 then []
      else if p.getD off 0 = 0 then []
      else if p.length < off + p.getD off 0 + 1 then []
      else ⟨off, p.getD off 0, p.getD (off + 1) 0, (p.drop (off + 2)).take (p.getD off 0 - 1)⟩ ::
        adWalkFrom p (off + p.getD off 0 + 1) := by
  have h := adWalkAux_congr p.length (p.length + 1) p (off + p.getD off 0 + 1)
    (by omega) (by omega)
  unfold adWalkFrom
  conv_lhs => rw [adWalkAux]
  rw [h]

lemma adWalkFrom_props : ∀ n p off, p.length - off ≤ n →
    ((adWalkFrom p off).length ≤ (p.length - off) / 2 ∧
     ∀ e ∈ adWalkFrom p off, off ≤ e.off ∧ e.off + e.adLen + 1 ≤ p.length ∧ 1 ≤ e.adLen) := by
  intro n
  induction n with
  | zero =>
    intro p off h
    rw [adWalkFrom_eq, if_pos (by omega)]
    simp
  | succ n ih =>
    intro p off h
    rw [adWalkFrom_eq]
    by_cases hc1 : p.length - off < 2
    · rw [if_pos hc1]; simp
    · rw [if_neg hc1]
      by_cases hc2 : p.getD off 0 = 0
      · rw [if_pos hc2]; simp
      · rw [if_neg hc2]
        by_cases hc3 : p.length < off + p.getD off 0 + 1
        · rw [if_pos hc3]; simp
        · rw [if_neg hc3]
          have hrec := ih p (off + p.getD off 0 + 1) (by omega)
          constructor
          · simp only [List.length_cons]
            omega
          · intro e he
            rcases List.mem_cons.mp he with rfl | he2
            · refine ⟨Nat.le_refl off, ?_, ?_⟩
              · show off + p.getD off 0 + 1 ≤ p.length
                omega
              · show 1 ≤ p.getD off 0
                omega
            · have h2 := hrec.2 e he2
              exact ⟨by omega, h2.2.1, h2.2.2⟩

lemma adWalkFrom_head {p : List Nat} {off : Nat} {e : ADElem} {es : List ADElem}
    (h : adWalkFrom p off = e :: es) :
    e.off = off ∧ e.adLen = p.getD off 0 ∧ es = adWalkFrom p (off + e.adLen + 1) := by
  rw [adWalkFrom_eq] at h
  by_cases hc1 : p.length - off < 2
  · rw [if_pos hc1] at h; exact absurd h (by simp)
  · rw [if_neg hc1] at h
    by_cases hc2 : p.getD off 0 = 0
    · rw [if_pos hc2] at h; exact absurd h (by simp)
    · rw [if_neg hc2] at h
      by_cases hc3 : p.length < off + p.getD off 0 + 1
      · rw [if_pos hc3] at h; exact absurd h (by simp)
      · rw [if_neg hc3] at h
        have h1 := (List.cons.injEq _ _ _ _).mp h
        refine ⟨?_, ?_, ?_⟩
        · rw [← h1.1]
        · rw [← h1.1]
        · rw [← h1.2, ← h1.1]

/-! ## Helper lemmas about extraction -/

lemma isNameElem_iff (e : ADElem) : isNameElem e = true ↔ (e.typ = 9 ∨ e.typ = 8) := by
  simp [isNameElem]

lemma isUuidElem_iff (e : ADElem) : isUuidElem e = true ↔ (e.typ = 3 ∧ 2 ≤ e.dat.length) := by
  simp [isUuidElem]

lemma extractStep_of_name {e : ADElem} (h : isNameElem e = true) (st : List Nat × List Nat) :
    extractStep st e = (e.dat, st.2) := by
  rw [extractStep, if_pos ((isNameElem_iff e).mp h)]

lemma extractStep_of_uuid {e : ADElem} (h : isUuidElem e = true) (st : List Nat × List Nat) :
    extractStep st e =
      (st.1, hex4 (((e.dat.getD 0 0) ||| ((e.dat.getD 1 0) <<< 8)) % 65536)) := by
  have h3 := (isUuidElem_iff e).mp h
  rw [extractStep, if_neg (by omega), if_pos h3]

lemma extractStep_of_other {e : ADElem} (hn : isNameElem e = false) (hu : isUuidElem e = false)
    (st : List Nat × List Nat) : extractStep st e = st := by
  have hn2 : ¬(e.typ = 9 ∨ e.typ = 8) := by
    intro hc
    rw [(isNameElem_iff e).mpr hc] at hn
    exact Bool.true_eq_false.mp hn
  have hu2 : ¬(e.typ = 3 ∧ 2 ≤ e.dat.length) := by
    intro hc
    rw [(isUuidElem_iff e).mpr hc] at hu
    exact Bool.true_eq_false.mp hu
  rw [extractStep, if_neg hn2, if_neg hu2]

lemma name_not_uuid {e : ADElem} (h : isNameElem e = true) : isUuidElem e = false := by
  rcases (isNameElem_iff e).mp h with h9 | h8
  · simp [isUuidElem, h9]
  · simp [isUuidElem, h8]

lemma foldl_extract_name : ∀ (l : List ADElem) (n u : List Nat),
    (l.foldl extractStep (n, u)).1 =
      (match (l.filter isNameElem).getLast? with
       | some e => e.dat
       | none => n) := by
  intro l
  induction l using List.reverseRecOn with
  | nil => intro n u; rfl
  | append_singleton l e ih =>
    intro n u
    rw [List.foldl_append, List.foldl_cons, List.foldl_nil, List.filter_append]
    by_cases hn : isNameElem e = true
    · rw [extractStep_of_name hn]
      have hf : List.filter isNameElem [e] = [e] := by
        simp [List.filter, hn]
      rw [hf, List.getLast?_concat]
    · have hn2 : isNameElem e = false := Bool.eq_false_iff.mpr hn
      have hf : List.filter isNameElem [e] = [] := by
        simp [List.filter, hn2]
      rw [hf, List.append_nil]
      by_cases hu : isUuidElem e = true
      · rw [extractStep_of_uuid hu]
        exact ih n u
      · rw [extractStep_of_other hn2 (Bool.eq_false_iff.mpr hu)]
        exact ih n u

lemma foldl_extract_uuid : ∀ (l : List ADElem) (n u : List Nat),
    (l.foldl extractStep (n, u)).2 =
      (match (l.filter isUuidElem).getLast? with
       | some e => hex4 (((e.dat.getD 0 0) ||| ((e.dat.getD 1 0) <<< 8)) % 65536)
       | none => u) := by
  intro l
  induction l using List.reverseRecOn with
  | nil => intro n u; rfl
  | append_singleton l e ih =>
    intro n u
    rw [List.foldl_append, List.foldl_cons, List.foldl_nil, List.filter_append]
    by_cases hu : isUuidElem e = true
    · rw [extractStep_of_uuid hu]
      have hf : List.filter isUuidElem [e] = [e] := by
        simp [List.filter, hu]
      rw [hf, List.getLast?_concat]
    · have hu2 : isUuidElem e = false := Bool.eq_false_iff.mpr hu
      have hf : List.filter isUuidElem [e] = [] := by
        simp [List.filter, hu2]
      rw [hf, List.append_nil]
      by_cases hn : isNameElem e = true
      · rw [extractStep_of_name hn]
        exact ih n u
      · rw [extractStep_of_other (Bool.eq_false_iff.mpr hn) hu2]
        exact ih n u

/-! ## Helper lemmas about hex rendering -/

lemma toHex_cons (b : Nat) (t : List Nat) :
    toHex (b :: t) = hexDigit (b / 16 % 16) :: hexDigit (b % 16) :: toHex t := by
  simp [toHex]

lemma toHex_length (p : List Nat) : (toHex p).length = 2 * p.length := by
  induction p with
  | nil => rfl
  | cons b t ih =>
    rw [toHex_cons]
    simp only [List.length_cons, ih]
    omega

lemma hexDigit_range (d : Nat) (h : d < 16) :
    (48 ≤ hexDigit d ∧ hexDigit d ≤ 57) ∨ (65 ≤ hexDigit d ∧ hexDigit d ≤ 70) := by
  unfold hexDigit
  by_cases h10 : d < 10
  · rw [if_pos h10]
    omega
  · rw [if_neg h10]
    omega

lemma toHex_mem (p : List Nat) :
    ∀ c ∈ toHex p, (48 ≤ c ∧ c ≤ 57) ∨ (65 ≤ c ∧ c ≤ 70) := by
  induction p with
  | nil => intro c hc; exact absurd hc (by simp [toHex])
  | cons b t ih =>
    intro c hc
    rw [toHex_cons] at hc
    rcases List.mem_cons.mp hc with rfl | hc2
    · exact hexDigit_range _ (Nat.mod_lt _ (by omega))
    · rcases List.mem_cons.mp hc2 with rfl | hc3
      · exact hexDigit_range _ (Nat.mod_lt _ (by omega))
      · exact ih c hc3

lemma toHex_getD : ∀ (p : List Nat) (i : Nat), i < p.length →
    (toHex p).getD (2 * i) 0 = hexDigit (p.getD i 0 / 16 % 16) ∧
    (toHex p).getD (2 * i + 1) 0 = hexDigit (p.getD i 0 % 16) := by
  intro p
  induction p with
  | nil => intro i hi; exact absurd hi (by simp)
  | cons b t ih =>
    intro i hi
    rw [toHex_cons]
    cases i with
    | zero => exact ⟨rfl, rfl⟩
    | succ i =>
      have h2 : 2 * (i + 1) = 2 * i + 1 + 1 := by omega
      rw [h2]
      simp only [List.getD_cons_succ, List.getD_cons_succ]
      exact ih i (by simpa using hi)

/-! ## Helper lemmas about substring search -/

lemma containsSub_iff (s pat : List Nat) :
    containsSub s pat = true ↔ ∃ t1 t2, s = t1 ++ pat ++ t2 := by
  unfold containsSub
  rw [List.any_eq_true]
  constructor
  · rintro ⟨i, hi, hp⟩
    rw [beq_iff_eq] at hp
    refine ⟨s.take i, (s.drop i).drop pat.length, ?_⟩
    conv_lhs => rw [← List.take_append_drop i s]
    conv_lhs => rw [← List.take_append_drop pat.length (s.drop i)]
    rw [hp, List.append_assoc]
  · rintro ⟨t1, t2, rfl⟩
    refine ⟨t1.length, ?_, ?_⟩
    · rw [List.mem_range]
      simp only [List.append_assoc, List.length_append]
      omega
    · rw [beq_iff_eq, List.append_assoc, List.drop_left, List.take_left]

/-! ## Helper lemmas about the deduplication registry -/

lemma devChanged_iff (dev : SeenDevice) (name payload : List Nat) (rssi : Int) :
    devChanged dev name payload rssi = true ↔
      ((dev.name ≠ name ∧ name ≠ []) ∨ dev.payload ≠ payload ∨
        10 < (dev.rssi - rssi).natAbs) := by
  simp [devChanged, nameChangedB, payloadChangedB, rssiChangedB, bne_iff_ne,
    List.length_pos, or_assoc]

lemma nameChangedB_iff (dev : SeenDevice) (name : List Nat) :
    nameChangedB dev name = true ↔ (dev.name ≠ name ∧ name ≠ []) := by
  simp [nameChangedB, bne_iff_ne, List.length_pos]

lemma payloadChangedB_iff (dev : SeenDevice) (payload : List Nat) :
    payloadChangedB dev payload = true ↔ dev.payload ≠ payload := by
  simp [payloadChangedB, bne_iff_ne]

lemma touchLoop_not_found (mac name payload : List Nat) (rssi : Int) (now : Nat) :
    ∀ regs : List SeenDevice, (∀ d ∈ regs, d.mac ≠ mac) →
      touchLoop regs mac name payload rssi now = (regs, none) := by
  intro regs
  induction regs with
  | nil => intro h; rfl
  | cons dev rest ih =>
    intro h
    have hd : (dev.mac == mac) = false := by
      simp [h dev (List.mem_cons_self dev rest)]
    rw [touchLoop, if_neg (by simp [hd]), ih (fun d hdm => h d (List.mem_cons_of_mem dev hdm))]

lemma touchLoop_map_mac (mac name payload : List Nat) (rssi : Int) (now : Nat) :
    ∀ regs : List SeenDevice,
      (touchLoop regs mac name payload rssi now).1.map (fun d => d.mac) =
        regs.map (fun d => d.mac) := by
  intro regs
  induction regs with
  | nil => rfl
  | cons dev rest ih =>
    rw [touchLoop]
    by_cases hd : dev.mac == mac
    · rw [if_pos hd]
      by_cases hc : devChanged dev name payload rssi
      · rw [if_pos hc]
        simp [updateDev]
      · rw [if_neg hc]
        simp
    · rw [if_neg hd]
      simp [ih]

lemma touchLoop_length (mac name payload : List Nat) (rssi : Int) (now : Nat)
    (regs : List SeenDevice) :
    (touchLoop regs mac name payload rssi now).1.length = regs.length := by
  have h := touchLoop_map_mac mac name payload rssi now regs
  have h1 := congrArg List.length h
  simpa using h1

lemma touchLoop_append (mac name payload : List Nat) (rssi : Int) (now : Nat)
    (dev : SeenDevice) (post : List SeenDevice) (hdev : dev.mac = mac) :
    ∀ pre : List SeenDevice, (∀ d ∈ pre, d.mac ≠ mac) →
      touchLoop (pre ++ dev :: post) mac name payload rssi now =
        (pre ++ (if devChanged dev name payload rssi then updateDev dev name payload rssi now
                 else { dev with lastSeen := now }) :: post,
         some (devChanged dev name payload rssi)) := by
  intro pre
  induction pre with
  | nil =>
    intro _
    rw [List.nil_append, List.nil_append, touchLoop, if_pos (by simp [hdev])]
    by_cases hc : devChanged dev name payload rssi
    · rw [if_pos hc, if_pos hc, hc]
    · rw [if_neg hc, if_neg hc]
      have hc2 : devChanged dev name payload rssi = false := Bool.eq_false_iff.mpr hc
      rw [hc2]
  | cons d pre ih =>
    intro h
    have hd : (d.mac == mac) = false := by
      simp [h d (List.mem_cons_self d pre)]
    rw [List.cons_append, touchLoop, if_neg (by simp [hd]),
      ih (fun x hx => h x (List.mem_cons_of_mem d hx))]
    simp

/-! ## Claim theorems -/

/-- C1: when the engine is initialized and the allow-list is active,
shouldShow returns true exactly when the report matches the allow-list in
one of the four categories, and the deny-list (contents and mode) cannot
affect the result; otherwise, when the deny-list is active, shouldShow
returns false exactly when the report matches the deny-list in one
category; when neither list is active, or the engine is uninitialized,
shouldShow returns true (fail-open). -/
theorem shouldShow_spec (fl : BLEFilter) (mac name uuid payload : List Nat) :
    (fl.initialized = true → fl.whitelist.mode = .FILTER_WHITELIST →
      ((shouldShow fl mac name uuid payload = true ↔
        (matchesOUI mac fl.whitelist.ouiList = true ∨
         matchesName name fl.whitelist.nameList = true ∨
         matchesUUID uuid fl.whitelist.uuidList = true ∨
         matchesPayload payload fl.whitelist.payloadList = true)) ∧
       ∀ bl : FilterConfig,
         shouldShow { fl with blacklist := bl } mac name uuid payload =
           shouldShow fl mac name uuid payload))
  ∧ (fl.initialized = true → fl.whitelist.mode ≠ .FILTER_WHITELIST →
      fl.blacklist.mode = .FILTER_BLACKLIST →
      (shouldShow fl mac name uuid payload = false ↔
        (matchesOUI mac fl.blacklist.ouiList = true ∨
         matchesName name fl.blacklist.nameList = true ∨
         matchesUUID uuid fl.blacklist.uuidList = true ∨
         matchesPayload payload fl.blacklist.payloadList = true)))
  ∧ (fl.initialized = true → fl.whitelist.mode ≠ .FILTER_WHITELIST →
      fl.blacklist.mode ≠ .FILTER_BLACKLIST →
      shouldShow fl mac name uuid payload = true)
  ∧ (fl.initialized = false → shouldShow fl mac name uuid payload = true) := by
  refine ⟨?_, ?_, ?_, ?_⟩
  · intro hinit hwl
    constructor
    · simp [shouldShow, hinit, hwl, or_assoc]
    · intro bl
      simp [shouldShow, hinit, hwl]
  · intro hinit hwl hbl
    have hstep : shouldShow fl mac name uuid payload =
        !(matchesOUI mac fl.blacklist.ouiList || matchesName name fl.blacklist.nameList ||
          matchesUUID uuid fl.blacklist.uuidList ||
          matchesPayload payload fl.blacklist.payloadList) := by
      simp [shouldShow, hinit, hwl, hbl]
    rw [hstep]
    cases hres : (matchesOUI mac fl.blacklist.ouiList ||
        matchesName name fl.blacklist.nameList ||
        matchesUUID uuid fl.blacklist.uuidList ||
        matchesPayload payload fl.blacklist.payloadList) with
    | false =>
      simp only [Bool.or_eq_false_iff] at hres
      simp [hres.1.1.1, hres.1.1.2, hres.1.2, hres.2]
    | true =>
      simp only [Bool.or_eq_true] at hres
      refine iff_of_true (by simp) ?_
      tauto
  · intro hinit hwl hbl
    simp [shouldShow, hinit, hwl, hbl]
  · intro hinit
    simp [shouldShow, hinit]

/-- Witness for C1 at a concrete initialized allow-list state. -/
theorem shouldShow_spec_witness :
    shouldShow ⟨⟨.FILTER_WHITELIST, [[65]], [], [], []⟩, ⟨.FILTER_OFF, [], [], [], []⟩, true⟩
      [65] [] [] [] = true :=
  ((shouldShow_spec _ [65] [] [] []).1 rfl rfl).1.mpr (Or.inl (by decide))

/-- C3: matchesOUI returns true exactly when some pattern in the list
matches the candidate address: a pattern of length at least 17 matches by
case-insensitive equality, a shorter pattern matches when the first
min(pattern length, address length) characters of the upper-cased strings
agree. -/
theorem matchesOUI_spec (mac : List Nat) (l : List (List Nat)) :
    matchesOUI mac l = true ↔
      ∃ p ∈ l, (17 ≤ p.length ∧ toUpperStr mac = toUpperStr p) ∨
        (p.length < 17 ∧
          (toUpperStr mac).take (min p.length mac.length) =
            (toUpperStr p).take (min p.length mac.length)) := by
  unfold matchesOUI
  by_cases hl : l.isEmpty
  · rw [if_pos hl]
    rw [List.isEmpty_iff] at hl
    subst hl
    simp
  · rw [if_neg hl]
    rw [List.any_eq_true]
    have hmlen : (toUpperStr mac).length = mac.length := by simp [toUpperStr]
    constructor
    · rintro ⟨p, hp, hm⟩
      refine ⟨p, hp, ?_⟩
      have hplen : (toUpperStr p).length = p.length := by simp [toUpperStr]
      rw [hplen, hmlen] at hm
      by_cases h17 : 17 ≤ p.length
      · rw [if_pos h17, beq_iff_eq] at hm
        exact Or.inl ⟨h17, hm⟩
      · rw [if_neg h17, beq_iff_eq] at hm
        exact Or.inr ⟨by omega, hm⟩
    · rintro ⟨p, hp, hm⟩
      refine ⟨p, hp, ?_⟩
      have hplen : (toUpperStr p).length = p.length := by simp [toUpperStr]
      rw [hplen, hmlen]
      rcases hm with ⟨h17, heq⟩ | ⟨h17, heq⟩
      · rw [if_pos h17, beq_iff_eq]
        exact heq
      · rw [if_neg (by omega), beq_iff_eq]
        exact heq

/-- C10: enableFilters re-activates a list exactly when that list has a
non-empty MAC/OUI pattern set (or the list was already active); after
disableFilters, a list whose only patterns are names, UUIDs or payload
signatures stays off, so shouldShow filters nothing until an add operation
re-activates the list. -/
theorem enableFilters_spec (fl : BLEFilter) (n : List Nat) :
    ((enableFilters fl).blacklist.mode = .FILTER_BLACKLIST ↔
      (fl.blacklist.ouiList ≠ [] ∨ fl.blacklist.mode = .FILTER_BLACKLIST))
  ∧ ((enableFilters fl).whitelist.mode = .FILTER_WHITELIST ↔
      (fl.whitelist.ouiList ≠ [] ∨ fl.whitelist.mode = .FILTER_WHITELIST))
  ∧ (fl.blacklist.ouiList = [] →
      (enableFilters (disableFilters fl)).blacklist.mode = .FILTER_OFF)
  ∧ (fl.whitelist.ouiList = [] →
      (enableFilters (disableFilters fl)).whitelist.mode = .FILTER_OFF)
  ∧ (fl.blacklist.ouiList = [] → fl.whitelist.ouiList = [] →
      ∀ mac name uuid payload,
        shouldShow (enableFilters (disableFilters fl)) mac name uuid payload = true)
  ∧ ((addBlacklistName (enableFilters (disableFilters fl)) n).blacklist.mode =
      .FILTER_BLACKLIST) := by
  refine ⟨?_, ?_, ?_, ?_, ?_, rfl⟩
  · by_cases he : fl.blacklist.ouiList.isEmpty = true
    · rw [List.isEmpty_iff] at he
      simp [enableFilters, he]
    · have hf : fl.blacklist.ouiList.isEmpty = false := Bool.eq_false_iff.mpr he
      have he2 : fl.blacklist.ouiList ≠ [] := by
        intro hc
        rw [hc] at hf
        exact absurd hf (by simp)
      simp [enableFilters, hf, he2]
  · by_cases he : fl.whitelist.ouiList.isEmpty = true
    · rw [List.isEmpty_iff] at he
      simp [enableFilters, he]
    · have hf : fl.whitelist.ouiList.isEmpty = false := Bool.eq_false_iff.mpr he
      have he2 : fl.whitelist.ouiList ≠ [] := by
        intro hc
        rw [hc] at hf
        exact absurd hf (by simp)
      simp [enableFilters, hf, he2]
  · intro hb
    simp [enableFilters, disableFilters, hb]
  · intro hw
    simp [enableFilters, disableFilters, hw]
  · intro hb hw mac name uuid payload
    simp [shouldShow, enableFilters, disableFilters, hb, hw]

/-- Witness for C10: after disable and enable on a state whose lists hold
only name patterns, shouldShow lets everything through. -/
theorem enableFilters_spec_witness :
    shouldShow (enableFilters (disableFilters
      ⟨⟨.FILTER_WHITELIST, [], [[65]], [], []⟩, ⟨.FILTER_BLACKLIST, [], [[66]], [], []⟩, true⟩))
      [1] [2] [3] [4] = true :=
  (enableFilters_spec ⟨⟨.FILTER_WHITELIST, [], [[65]], [], []⟩,
    ⟨.FILTER_BLACKLIST, [], [[66]], [], []⟩, true⟩ []).2.2.2.2.1 rfl rfl [1] [2] [3] [4]

/-- C4 counterexample: with candidate name a (byte 97) and the lower-case
pattern a, the pattern does occur in the candidate when case is ignored
(upper-casing both sides exhibits the occurrence), the candidate and the
pattern list are non-empty, yet matchesName returns false, because the
engine never upper-cases the pattern. -/
theorem matchesName_case_counterexample :
    matchesName [97] [[97]] = false ∧
    containsSub (toUpperStr [97]) (toUpperStr [97]) = true ∧
    ([97] : List Nat) ≠ [] ∧ ([[97]] : List (List Nat)) ≠ [] := by decide

/-- C4 amended: name and UUID matching upper-case only the candidate; the
match succeeds exactly when some pattern occurs verbatim as a contiguous
substring of the upper-cased candidate; an empty candidate name never
matches and an empty pattern list never matches. -/
theorem matchesName_matchesUUID_spec (name uuidC : List Nat) (nl ul : List (List Nat)) :
    (matchesName name nl = true ↔
      (name ≠ [] ∧ ∃ p ∈ nl, ∃ t1 t2, toUpperStr name = t1 ++ p ++ t2))
  ∧ (matchesUUID uuidC ul = true ↔ ∃ p ∈ ul, ∃ t1 t2, toUpperStr uuidC = t1 ++ p ++ t2) := by
  constructor
  · unfold matchesName
    by_cases hmt : (nl.isEmpty || name.length == 0) = true
    · rw [if_pos hmt]
      simp only [Bool.or_eq_true, List.isEmpty_iff, beq_iff_eq, List.length_eq_zero] at hmt
      constructor
      · intro h
        exact absurd h (by simp)
      · rintro ⟨hname, p, hp, _⟩
        rcases hmt with rfl | rfl
        · exact absurd hp (List.not_mem_nil p)
        · exact (hname rfl).elim
    · rw [if_neg hmt]
      simp only [Bool.or_eq_true, List.isEmpty_iff, beq_iff_eq, List.length_eq_zero] at hmt
      push_neg at hmt
      rw [List.any_eq_true]
      constructor
      · rintro ⟨p, hp, hc⟩
        exact ⟨hmt.2, p, hp, (containsSub_iff _ _).mp hc⟩
      · rintro ⟨hname, p, hp, ht⟩
        exact ⟨p, hp, (containsSub_iff _ _).mpr ht⟩
  · unfold matchesUUID
    by_cases hmt : ul.isEmpty = true
    · rw [if_pos hmt]
      rw [List.isEmpty_iff] at hmt
      subst hmt
      simp
    · rw [if_neg hmt]
      rw [List.any_eq_true]
      constructor
      · rintro ⟨p, hp, hc⟩
        exact ⟨p, hp, (containsSub_iff _ _).mp hc⟩
      · rintro ⟨p, hp, ht⟩
        exact ⟨p, hp, (containsSub_iff _ _).mpr ht⟩

/-- C2 counterexample: the payload holding two Complete-Local-Name
elements, first A then B, extracts the name B, not the bytes of the first
Complete-Local-Name element, so later occurrences are not ignored. -/
theorem extract_name_last_not_first :
    (extractAttrs [2, 9, 65, 2, 9, 66]).1 ≠ specFirstLocalName [2, 9, 65, 2, 9, 66] := by
  decide

/-- C2 amended: for a payload of bytes, the extracted name is the data of
the last local-name element (type 0x09 Complete or 0x08 Shortened), one
character per byte, empty if none; the extracted uuid is the 4-hex-digit
upper-case rendering of the 16-bit value taken little-endian from the
first two data bytes of the last 16-bit-UUID element with at least two
data bytes, empty if none; the payload is rendered as upper-case hex, two
characters per byte with no separator, in payload order. Later name and
UUID occurrences override earlier ones. -/
theorem extractAttrs_spec (p : List Nat) (hb : ∀ b ∈ p, b < 256) :
    (extractAttrs p).1 = lastNameOf (adWalk p)
  ∧ (extractAttrs p).2.1 = lastUuidOf (adWalk p)
  ∧ (extractAttrs p).2.2 = toHex p
  ∧ (extractAttrs p).2.2.length = 2 * p.length
  ∧ (∀ c ∈ (extractAttrs p).2.2, (48 ≤ c ∧ c ≤ 57) ∨ (65 ≤ c ∧ c ≤ 70))
  ∧ (∀ i, i < p.length →
      (extractAttrs p).2.2.getD (2 * i) 0 = hexDigit (p.getD i 0 / 16) ∧
      (extractAttrs p).2.2.getD (2 * i + 1) 0 = hexDigit (p.getD i 0 % 16)) := by
  refine ⟨?_, ?_, rfl, toHex_length p, toHex_mem p, ?_⟩
  · show ((adWalk p).foldl extractStep ([], [])).1 = lastNameOf (adWalk p)
    rw [foldl_extract_name, lastNameOf]
  · show ((adWalk p).foldl extractStep ([], [])).2 = lastUuidOf (adWalk p)
    rw [foldl_extract_uuid, lastUuidOf]
  · intro i hi
    have hg := toHex_getD p i hi
    have hmem : p.getD i 0 ∈ p := by
      rw [List.getD_eq_getElem p 0 hi]
      exact List.getElem_mem hi
    have hlt : p.getD i 0 < 256 := hb _ hmem
    have hdiv : p.getD i 0 / 16 % 16 = p.getD i 0 / 16 := by omega
    rw [hdiv] at hg
    exact hg

/-- Witness for C2 amended at a one-element payload. -/
theorem extractAttrs_spec_witness :
    (extractAttrs [2, 9, 65]).1 = lastNameOf (adWalk [2, 9, 65]) :=
  (extractAttrs_spec [2, 9, 65] (by decide)).1

/-- C5: a report whose address is tracked classifies as Changed exactly
when the name differs with a non-empty new name, or the payload hex
differs, or the signal strength moved by more than 10 dBm; otherwise it
classifies Unchanged. The concrete scenario: after a report at RSSI -50, a
second report at -55 is Unchanged, and a third at -65 is Changed, because
the stored RSSI is still -50. -/
theorem classify_spec (regs : List SeenDevice) (mac name payload : List Nat) (rssi : Int)
    (dev : SeenDevice) (hfind : regs.find? (fun d => d.mac == mac) = some dev) :
    (classify regs mac name payload rssi = .Changed ↔
      ((dev.name ≠ name ∧ name ≠ []) ∨ dev.payload ≠ payload ∨
        10 < (dev.rssi - rssi).natAbs))
  ∧ (classify regs mac name payload rssi = .Unchanged ↔
      ¬((dev.name ≠ name ∧ name ≠ []) ∨ dev.payload ≠ payload ∨
        10 < (dev.rssi - rssi).natAbs))
  ∧ (classify (dedupStep [] macA nameX pay0102 (-50) 100).1 macA nameX pay0102 (-55) =
      .Unchanged)
  ∧ (classify (dedupStep (dedupStep [] macA nameX pay0102 (-50) 100).1 macA nameX pay0102
      (-55) 200).1 macA nameX pay0102 (-65) = .Changed) := by
  have hcls : classify regs mac name payload rssi =
      (if devChanged dev name payload rssi then Classification.Changed else .Unchanged) := by
    unfold classify
    rw [hfind]
  refine ⟨?_, ?_, by decide, by decide⟩
  · rw [hcls]
    by_cases hc : devChanged dev name payload rssi = true
    · rw [if_pos hc]
      exact iff_of_true rfl ((devChanged_iff dev name payload rssi).mp hc)
    · rw [if_neg hc]
      exact iff_of_false (by simp) (fun hp => hc ((devChanged_iff dev name payload rssi).mpr hp))
  · rw [hcls]
    by_cases hc : devChanged dev name payload rssi = true
    · rw [if_pos hc]
      exact iff_of_false (by simp) (fun hnp => hnp ((devChanged_iff dev name payload rssi).mp hc))
    · rw [if_neg hc]
      exact iff_of_true rfl (fun hp => hc ((devChanged_iff dev name payload rssi).mpr hp))

/-- Witness for C5 at a concrete one-entry registry with a changed payload. -/
theorem classify_spec_witness :
    classify [⟨[1], [2], [3], -50, 0⟩] [1] [2] [9] (-50) = .Changed :=
  ((classify_spec [⟨[1], [2], [3], -50, 0⟩] [1] [2] [9] (-50) ⟨[1], [2], [3], -50, 0⟩
    (by decide)).1).mpr (Or.inr (Or.inl (by decide)))

/-- C6 counterexample: for the tracked device devD (name X, payload hex 01,
RSSI -50), a report with empty name, payload hex 02 and RSSI -50 is
classified Changed; the stored name differs from the incoming name, yet
after the update the stored name is still X, not the incoming empty name,
so it is not the case that exactly the differing fields are updated. -/
theorem touchLoop_name_counterexample :
    devChanged devD [] [48, 50] (-50) = true ∧
    devD.name ≠ ([] : List Nat) ∧
    (touchLoop [devD] devD.mac [] [48, 50] (-50) 7).1 =
      [⟨devD.mac, devD.name, [48, 50], -50, 7⟩] := by decide

/-- C6 amended: when the first matching entry is classified Changed, the
stored name is replaced exactly when it differs and the new name is
non-empty, the stored payload is replaced exactly when it differs, the
stored signal strength is always overwritten with the current value, and
the timestamp is refreshed; when it is classified Unchanged only the
timestamp is refreshed; in both cases the address and all other entries
are untouched. -/
theorem touchLoop_frame (mac name payload : List Nat) (rssi : Int) (now : Nat)
    (pre post : List SeenDevice) (dev : SeenDevice)
    (hpre : ∀ d ∈ pre, d.mac ≠ mac) (hdev : dev.mac = mac) :
    (touchLoop (pre ++ dev :: post) mac name payload rssi now =
      (pre ++ (if devChanged dev name payload rssi then updateDev dev name payload rssi now
               else { dev with lastSeen := now }) :: post,
       some (devChanged dev name payload rssi)))
  ∧ (updateDev dev name payload rssi now).name =
      (if dev.name ≠ name ∧ name ≠ [] then name else dev.name)
  ∧ (updateDev dev name payload rssi now).payload =
      (if dev.payload ≠ payload then payload else dev.payload)
  ∧ (updateDev dev name payload rssi now).rssi = rssi
  ∧ (updateDev dev name payload rssi now).lastSeen = now
  ∧ (updateDev dev name payload rssi now).mac = dev.mac := by
  refine ⟨touchLoop_append mac name payload rssi now dev post hdev pre hpre, ?_, ?_, rfl, rfl, rfl⟩
  · show (if nameChangedB dev name then name else dev.name) = _
    by_cases hn : nameChangedB dev name = true
    · rw [if_pos hn, if_pos ((nameChangedB_iff dev name).mp hn)]
    · rw [if_neg hn, if_neg (fun hp => hn ((nameChangedB_iff dev name).mpr hp))]
  · show (if payloadChangedB dev payload then payload else dev.payload) = _
    by_cases hp : payloadChangedB dev payload = true
    · rw [if_pos hp, if_pos ((payloadChangedB_iff dev payload).mp hp)]
    · rw [if_neg hp, if_neg (fun hq => hp ((payloadChangedB_iff dev payload).mpr hq))]

/-- Witness for C6 amended: on a Changed report the stored signal strength
takes the current value. -/
theorem touchLoop_frame_witness :
    (updateDev ⟨[1], [2], [3], 0, 0⟩ [] [3] 0 5).rssi = 0 :=
  (touchLoop_frame [1] [] [3] 0 5 [] [] ⟨[1], [2], [3], 0, 0⟩ (by simp) rfl).2.2.2.1

/-- C7: one deduplication step keeps the registry at no more than 100
entries and keeps addresses unique; when the address is not tracked and
the registry is at capacity, nothing is inserted, the report still counts
as new or changed, classifies as New, and the age-based display check
still labels it NEW. -/
theorem dedupStep_invariants (regs : List SeenDevice) (mac name payload : List Nat)
    (rssi : Int) (now : Nat) :
    (regs.length ≤ 100 → (dedupStep regs mac name payload rssi now).1.length ≤ 100)
  ∧ ((regs.map (fun d => d.mac)).Nodup →
      ((dedupStep regs mac name payload rssi now).1.map (fun d => d.mac)).Nodup)
  ∧ (100 ≤ regs.length → (∀ d ∈ regs, d.mac ≠ mac) →
      (dedupStep regs mac name payload rssi now).1 = regs ∧
      (dedupStep regs mac name payload rssi now).2 = true ∧
      classify regs mac name payload rssi = .New ∧
      (∀ t, isNewLabel regs mac t = true)) := by
  have hlen := touchLoop_length mac name payload rssi now regs
  have hmap := touchLoop_map_mac mac name payload rssi now regs
  have hstep : dedupStep regs mac name payload rssi now =
      (if ((touchLoop regs mac name payload rssi now).2 != some false) &&
          decide ((touchLoop regs mac name payload rssi now).1.length < 100) &&
          !((touchLoop regs mac name payload rssi now).1.any (fun d => d.mac == mac)) then
        ((touchLoop regs mac name payload rssi now).1 ++ [⟨mac, name, payload, rssi, now⟩],
         (touchLoop regs mac name payload rssi now).2 != some false)
      else ((touchLoop regs mac name payload rssi now).1,
        (touchLoop regs mac name payload rssi now).2 != some false)) := rfl
  refine ⟨?_, ?_, ?_⟩
  · intro h100
    rw [hstep]
    by_cases hins : (((touchLoop regs mac name payload rssi now).2 != some false) &&
        decide ((touchLoop regs mac name payload rssi now).1.length < 100) &&
        !((touchLoop regs mac name payload rssi now).1.any (fun d => d.mac == mac))) = true
    · rw [if_pos hins]
      simp only [Bool.and_eq_true, decide_eq_true_eq] at hins
      simp only [List.length_append, List.length_cons, List.length_nil]
      omega
    · rw [if_neg hins]
      show (touchLoop regs mac name payload rssi now).1.length ≤ 100
      omega
  · intro hnodup
    rw [hstep]
    by_cases hins : (((touchLoop regs mac name payload rssi now).2 != some false) &&
        decide ((touchLoop regs mac name payload rssi now).1.length < 100) &&
        !((touchLoop regs mac name payload rssi now).1.any (fun d => d.mac == mac))) = true
    · rw [if_pos hins]
      simp only [Bool.and_eq_true] at hins
      have hany : ((touchLoop regs mac name payload rssi now).1.any
          (fun d => d.mac == mac)) = false := by
        have h3 := hins.2
        cases h : ((touchLoop regs mac name payload rssi now).1.any (fun d => d.mac == mac)) with
        | false => rfl
        | true => rw [h] at h3; exact absurd h3 (by simp)
      have hmac_not : mac ∉ (touchLoop regs mac name payload rssi now).1.map
          (fun d => d.mac) := by
        intro hmem
        rcases List.mem_map.mp hmem with ⟨d, hd, hdm⟩
        have := List.any_eq_false.mp hany d hd
        rw [beq_iff_eq] at this
        exact this hdm
      rw [List.map_append]
      refine List.Nodup.append (hmap.symm ▸ hnodup) (by simp) ?_
      intro a ha hb
      rw [List.map_cons, List.map_nil] at hb
      have hab : a = mac := by
        rcases List.mem_cons.mp hb with h | h
        · exact h
        · exact absurd h (List.not_mem_nil a)
      exact hmac_not (hab ▸ ha)
    · rw [if_neg hins]
      exact hmap.symm ▸ hnodup
  · intro h100 hnm
    have ht0 : touchLoop regs mac name payload rssi now = (regs, none) :=
      touchLoop_not_found mac name payload rssi now regs hnm
    have hno : ¬((((touchLoop regs mac name payload rssi now).2 != some false) &&
        decide ((touchLoop regs mac name payload rssi now).1.length < 100) &&
        !((touchLoop regs mac name payload rssi now).1.any (fun d => d.mac == mac))) = true) := by
      rw [ht0]
      simp
      omega
    refine ⟨?_, ?_, ?_, ?_⟩
    · rw [hstep, if_neg hno, ht0]
    · rw [hstep, if_neg hno, ht0]
      rfl
    · unfold classify
      rw [List.find?_eq_none.mpr (fun d hd => by simp [hnm d hd])]
    · intro t
      unfold isNewLabel
      have hany : (regs.any (fun d => d.mac == mac &&
          decide (d.lastSeen < (t + 4294967296 - 1000) % 4294967296))) = false := by
        rw [List.any_eq_false]
        intro d hd
        simp [hnm d hd]
      rw [hany]
      rfl

/-- Witness for C7: a step on an empty registry stays within capacity. -/
theorem dedupStep_invariants_witness :
    (dedupStep [] [1] [] [] 0 0).1.length ≤ 100 :=
  (dedupStep_invariants [] [1] [] [] 0 0).1 (by decide)

/-- C8: the AD walk over a buffer of N bytes yields at most N/2 elements;
every yielded element lies entirely inside the buffer (its last byte is at
index off + L, below N) and has a non-zero length byte; a zero length byte
stops the walk even when at least two bytes remain; an element whose
declared length would extend past the buffer end is not yielded and stops
the walk; and each yielded element advances the position by exactly
L + 1 bytes. -/
theorem adWalk_termination (p : List Nat) :
    ((adWalk p).length ≤ p.length / 2)
  ∧ (∀ e ∈ adWalk p, e.off + e.adLen + 1 ≤ p.length ∧ 1 ≤ e.adLen)
  ∧ (∀ off, 2 ≤ p.length - off → p.getD off 0 = 0 → adWalkFrom p off = [])
  ∧ (∀ off, p.getD off 0 ≠ 0 → p.length < off + p.getD off 0 + 1 → adWalkFrom p off = [])
  ∧ (∀ off e es, adWalkFrom p off = e :: es →
      e.off = off ∧ e.adLen = p.getD off 0 ∧ es = adWalkFrom p (off + e.adLen + 1)) := by
  have hp := adWalkFrom_props p.length p 0 (by omega)
  refine ⟨?_, ?_, ?_, ?_, fun off e es h => adWalkFrom_head h⟩
  · show (adWalkFrom p 0).length ≤ p.length / 2
    have h1 := hp.1
    omega
  · intro e he
    have h2 := hp.2 e he
    exact ⟨h2.2.1, h2.2.2⟩
  · intro off h2 h0
    rw [adWalkFrom_eq, if_neg (by omega), if_pos h0]
  · intro off hne hover
    rw [adWalkFrom_eq]
    by_cases hc1 : p.length - off < 2
    · rw [if_pos hc1]
    · rw [if_neg hc1, if_neg hne, if_pos hover]

/-- Witness for C8 on a buffer whose first length byte is zero. -/
theorem adWalk_termination_witness :
    (adWalk [0, 5]).length ≤ [0, 5].length / 2 ∧ adWalkFrom [0, 5] 0 = [] :=
  ⟨(adWalk_termination [0, 5]).1, (adWalk_termination [0, 5]).2.2.1 0 (by decide) (by decide)⟩

/-- C9: for sane clock values (no 32-bit wrap, registry timestamps not in
the future), the display label is CHANGED (isNewLabel false) exactly when
the registry holds an entry for the address whose last-observed timestamp
is more than 1000 milliseconds before the current time; the check is a
function of the registry, the address and the clock alone, independent of
the classify and insert decisions. -/
theorem isNewLabel_spec (regs : List SeenDevice) (mac : List Nat) (now : Nat)
    (h1 : 1000 ≤ now) (h2 : now < 4294967296)
    (h3 : ∀ d ∈ regs, d.lastSeen ≤ now) :
    isNewLabel regs mac now = false ↔
      ∃ d ∈ regs, d.mac = mac ∧ 1000 < now - d.lastSeen := by
  unfold isNewLabel
  have hmod : (now + 4294967296 - 1000) % 4294967296 = now - 1000 := by omega
  rw [hmod]
  rw [Bool.not_eq_false']
  simp only [List.any_eq_true, Bool.and_eq_true, beq_iff_eq, decide_eq_true_eq]
  constructor
  · rintro ⟨d, hd, hmac, hlt⟩
    have := h3 d hd
    exact ⟨d, hd, hmac, by omega⟩
  · rintro ⟨d, hd, hmac, hlt⟩
    have := h3 d hd
    exact ⟨d, hd, hmac, by omega⟩

/-- Witness for C9: an entry last observed 1900 ms ago gets the CHANGED
label. -/
theorem isNewLabel_spec_witness :
    isNewLabel [⟨[5], [], [], 0, 100⟩] [5] 2000 = false :=
  (isNewLabel_spec [⟨[5], [], [], 0, 100⟩] [5] 2000 (by omega) (by omega)
    (by decide)).mpr ⟨⟨[5], [], [], 0, 100⟩, by decide, rfl, by decide⟩

end BLERecon
